import Mathlib

/-!
Shallow embedding of the trend-analysis signal-processing core of
`src/components/TrendAnalysis.tsx`: moving-average smoothing
(`calculateSMA`), inflection-point detection via adaptive baseline
tracking (`findInflectionPoint`), linear-regression forecasting with
damping (`generateForecast`), and the composing pipeline
(`getAnalysisData`).

JavaScript numbers are modelled as exact rationals (`ℚ`); timestamps
(ISO strings converted through `Date.getTime()`) are modelled as
integers (`Int`, milliseconds).  A possibly-missing numeric field is an
`Option ℚ` (`none` = `undefined`).
-/

namespace TrendAnalysis

/-- One raw chart sample, restricted to the fields the analysis reads:
its timestamp and the numeric value `point[key]` of the selected data
key (`none` models a missing / `undefined` key). -/
structure RawPoint where
  time : Int
  val : Option ℚ
deriving Repr, DecidableEq

/-- Output sample of `calculateSMA`: the original point (spread via
`{...point}`) together with the added `sma` field, which is `undefined`
(`none`) for the first `windowSize - 1` indices. -/
structure SmoothedPoint where
  time : Int
  val : Option ℚ
  sma : Option ℚ
deriving Repr, DecidableEq

/-- One entry of the list returned by `generateForecast`: the anchor
point has no `isForecast` field (modelled `false`), the projected points
carry `isForecast: true`. -/
structure ForecastPoint where
  time : Int
  forecast : ℚ
  isForecast : Bool
deriving Repr, DecidableEq

/-- JavaScript `x || 0` applied to a possibly-missing numeric field:
a missing (`undefined`) value is coerced to `0` (a present `0` is also
falsy in JS, but `0 || 0 = 0`, so `getD 0` captures both cases). -/
def orZero (v : Option ℚ) : ℚ := v.getD 0

/-- Placeholder element for safe indexing (`getD`); never observable on
the guarded paths of the source. -/
def dummyS : SmoothedPoint := ⟨0, none, none⟩

/-- Placeholder raw point for safe indexing. -/
def dummyR : RawPoint := ⟨0, none⟩

/-- Placeholder forecast point for safe indexing. -/
def dummyF : ForecastPoint := ⟨0, 0, false⟩

/-- Source function `calculateSMA(data, key, windowSize)` (TrendAnalysis.tsx lines
94-101): maps each point to `{...point, sma}` where `sma` is
`undefined` for `index < windowSize - 1` and otherwise the sum of
`curr[key] || 0` over `data.slice(index - windowSize + 1, index + 1)`
divided by `windowSize`.  The selected key is already projected into
`RawPoint.val`. -/
def calculateSMA (data : List RawPoint) (windowSize : Nat) : List SmoothedPoint :=
  data.mapIdx (fun index point =>
    if index < windowSize - 1 then ⟨point.time, point.val, none⟩
    else
      let subset := (data.drop (index + 1 - windowSize)).take windowSize
      let sum := subset.foldl (fun acc curr => acc + orZero curr.val) 0
      ⟨point.time, point.val, some (sum / (windowSize : ℚ))⟩)

/-- The `validData` computation shared by `findInflectionPoint` (line
105) and `generateForecast` (line 139): entries whose `sma` is
defined. -/
def validOf (data : List SmoothedPoint) : List SmoothedPoint :=
  data.filter (fun d => d.sma.isSome)

/-- The dynamic baseline update of `findInflectionPoint` (lines
120-126): when the value is stable relative to the baseline
(`|currentSMA - baseline| < 2`), the baseline is exponentially updated
(`baseline*0.8 + currentSMA*0.2`); otherwise it is left unchanged. -/
def baselineStep (baseline currentSMA : ℚ) : ℚ :=
  if |currentSMA - baseline| < 2 then baseline * 0.8 + currentSMA * 0.2
  else baseline

/-- The scanning loop of `findInflectionPoint` (lines 117-133): for
each remaining valid sample, first update the baseline via
`baselineStep`, then fire on `currentSMA - baseline > 6`, returning
that sample's timestamp and stopping (`break`). -/
def inflectionGo (baseline : ℚ) : List SmoothedPoint → Option Int
  | [] => none
  | d :: rest =>
    if orZero d.sma - baselineStep baseline (orZero d.sma) > 6 then some d.time
    else inflectionGo (baselineStep baseline (orZero d.sma)) rest

/-- Source function `findInflectionPoint(data)` (lines 104-135): filter to entries with
a defined `sma`; fewer than 5 → `null`; otherwise initialise the
baseline with the first valid SMA and scan the rest with
`inflectionGo`. -/
def findInflectionPoint (data : List SmoothedPoint) : Option Int :=
  let validData := validOf data
  if validData.length < 5 then none
  else
    match validData with
    | [] => none
    | d0 :: rest => inflectionGo (orZero d0.sma) rest

/-- The `forEach` accumulation loop of `generateForecast` (lines
146-152): running index `i` and accumulator `(sumX, sumY, sumXY,
sumXX)`. -/
def olsLoop : Nat → (ℚ × ℚ × ℚ × ℚ) → List SmoothedPoint → (ℚ × ℚ × ℚ × ℚ)
  | _, s, [] => s
  | i, s, p :: rest =>
    let y := orZero p.sma
    olsLoop (i + 1) (s.1 + (i : ℚ), s.2.1 + y, s.2.2.1 + (i : ℚ) * y,
      s.2.2.2 + (i : ℚ) * (i : ℚ)) rest

/-- Source function `generateForecast(data, key, pointsToForecast = 6)` (lines 138-184):
filter to defined `sma`; fewer than 5 → `[]`; fit an OLS line over the
trailing `n = min(length, 5)` samples indexed `0..n-1`; push an anchor
duplicating the last valid sample, then `pointsToForecast` damped
projections.  The `key` parameter is accepted but never read, exactly
as in the source. -/
def generateForecast (data : List SmoothedPoint) (key : String)
    (pointsToForecast : Nat := 6) : List ForecastPoint :=
  let _ := key
  let validData := validOf data
  if validData.length < 5 then []
  else
    let n : Nat := min validData.length 5
    let subset := validData.drop (validData.length - n)
    let s := olsLoop 0 (0, 0, 0, 0) subset
    let sumX := s.1
    let sumY := s.2.1
    let sumXY := s.2.2.1
    let sumXX := s.2.2.2
    let slope := ((n : ℚ) * sumXY - sumX * sumY) /
      ((n : ℚ) * sumXX - sumX * sumX)
    let intercept := (sumY - slope * sumX) / (n : ℚ)
    let lastPoint := validData.getD (validData.length - 1) dummyS
    let lastTime := lastPoint.time
    let prevTime := (validData.getD (validData.length - 2) dummyS).time
    let interval := lastTime - prevTime
    ⟨lastPoint.time, orZero lastPoint.sma, false⟩ ::
      (List.range pointsToForecast).map (fun j =>
        let i : Nat := j + 1
        let damping := max (0.5 : ℚ) (1 - (i : ℚ) * 0.1)
        let val := (slope * damping) * ((n : ℚ) - 1 + (i : ℚ)) + intercept
        ⟨lastTime + interval * (i : Int), max 0 val, true⟩)

/-- One entry of the combined chartable sequence built by
`getAnalysisData` (lines 394-423): history entries carry
`{time, original, sma}` (no `forecast` field → `none`, except the
boundary entry), forecast entries carry `{time, forecast}`. -/
structure CombinedPoint where
  time : Int
  original : Option ℚ
  sma : Option ℚ
  forecast : Option ℚ
deriving Repr, DecidableEq

/-- The record returned by `getAnalysisData`. -/
structure AnalysisResult where
  fullData : List CombinedPoint
  inflectionTime : Option Int
  forecastStartTime : Option Int
deriving Repr, DecidableEq

/-- Source function `getAnalysisData(dataKey)` (lines 394-423): smooth with window 5,
detect the inflection, forecast with the default horizon 6, build the
history view, stamp the boundary history entry with
`forecast = its own sma`, and append the forecast tail (the anchor is
dropped by `slice(1)`). -/
def getAnalysisData (chartData : List RawPoint) : AnalysisResult :=
  let smaData := calculateSMA chartData 5
  let inflectionTime := findInflectionPoint smaData
  let forecastPoints := generateForecast smaData "sma" 6
  let history := smaData.map (fun d =>
    (⟨d.time, d.val, d.sma, none⟩ : CombinedPoint))
  let forecast := (forecastPoints.drop 1).map (fun d =>
    (⟨d.time, none, none, some d.forecast⟩ : CombinedPoint))
  let history2 :=
    if 0 < history.length ∧ 0 < forecastPoints.length then
      let lastH := history.getD (history.length - 1) ⟨0, none, none, none⟩
      history.set (history.length - 1)
        ⟨lastH.time, lastH.original, lastH.sma, lastH.sma⟩
    else history
  ⟨history2 ++ forecast, inflectionTime,
    forecastPoints.head?.map (fun p => p.time)⟩

/-- A smoothed series whose defined smoothed values drift upward by
exactly 1.9 per step (7 valid samples, start value 10). -/
def c1CexData : List SmoothedPoint :=
  [⟨0, none, some 10⟩, ⟨1, none, some 11.9⟩, ⟨2, none, some 13.8⟩,
   ⟨3, none, some 15.7⟩, ⟨4, none, some 17.6⟩, ⟨5, none, some 19.5⟩,
   ⟨6, none, some 21.4⟩]

/-- A perfectly flat smoothed series: 20 samples all at 15.0. -/
def c6FlatData : List SmoothedPoint :=
  (List.range 20).map (fun i => ⟨(i : Int), none, some 15⟩)

/-! ### Named pieces of `generateForecast`'s else-branch

These name the let-bound subexpressions of the source (lines 143-182)
so that theorems can speak about them; each is definitionally equal to
the corresponding let in `generateForecast`. -/

/-- The expression `validData[validData.length - 1]` — the last defined sample. -/
def lastValid (data : List SmoothedPoint) : SmoothedPoint :=
  (validOf data).getD ((validOf data).length - 1) dummyS

/-- The expression `validData[validData.length - 2]` — the second-to-last defined
sample (used for the interval estimate, line 161). -/
def prevValid (data : List SmoothedPoint) : SmoothedPoint :=
  (validOf data).getD ((validOf data).length - 2) dummyS

/-- The window `subset = validData.slice(validData.length - n)` with
`n = min(validData.length, 5)` (lines 143-144): the trailing fit
window. -/
def fitWindow (data : List SmoothedPoint) : List SmoothedPoint :=
  (validOf data).drop ((validOf data).length - min (validOf data).length 5)

/-- The fit-window value at index `j` (0-based within the window). -/
def fitY (data : List SmoothedPoint) (j : Nat) : ℚ :=
  orZero ((fitWindow data).getD j dummyS).sma

/-- The code's `slope` (line 154), written over the accumulated sums of
`olsLoop`. -/
def codeSlope (data : List SmoothedPoint) : ℚ :=
  (((min (validOf data).length 5 : ℕ) : ℚ) * (olsLoop 0 (0, 0, 0, 0) (fitWindow data)).2.2.1
      - (olsLoop 0 (0, 0, 0, 0) (fitWindow data)).1
        * (olsLoop 0 (0, 0, 0, 0) (fitWindow data)).2.1)
    / (((min (validOf data).length 5 : ℕ) : ℚ) * (olsLoop 0 (0, 0, 0, 0) (fitWindow data)).2.2.2
      - (olsLoop 0 (0, 0, 0, 0) (fitWindow data)).1
        * (olsLoop 0 (0, 0, 0, 0) (fitWindow data)).1)

/-- The code's `intercept` (line 155). -/
def codeIntercept (data : List SmoothedPoint) : ℚ :=
  ((olsLoop 0 (0, 0, 0, 0) (fitWindow data)).2.1
      - codeSlope data * (olsLoop 0 (0, 0, 0, 0) (fitWindow data)).1)
    / ((min (validOf data).length 5 : ℕ) : ℚ)

/-- The anchor point pushed first (lines 167-170): duplicates the last
defined sample's timestamp and smoothed value. -/
def gfAnchor (data : List SmoothedPoint) : ForecastPoint :=
  ⟨(lastValid data).time, orZero (lastValid data).sma, false⟩

/-- The `j`-th projected point (loop body, lines 172-182), for forecast
step `i = j + 1`. -/
def gfStep (data : List SmoothedPoint) (j : Nat) : ForecastPoint :=
  ⟨(lastValid data).time
      + ((lastValid data).time - (prevValid data).time) * ((j + 1 : Nat) : Int),
   max 0 ((codeSlope data * max 0.5 (1 - ((j + 1 : Nat) : ℚ) * 0.1))
      * (((min (validOf data).length 5 : ℕ) : ℚ) - 1 + ((j + 1 : Nat) : ℚ))
      + codeIntercept data),
   true⟩

/-! ### Spec-side definitions (refinement targets) -/

/-- Modelled from the spec (§4.3): the closed-form ordinary
least-squares slope of the line `value = slope*index + intercept`
fitted over values `y 0 .. y (n-1)` at indices `0..n-1`. -/
def specSlope (n : Nat) (y : Nat → ℚ) : ℚ :=
  ((n : ℚ) * (∑ i in Finset.range n, (i : ℚ) * y i)
      - (∑ i in Finset.range n, (i : ℚ)) * (∑ i in Finset.range n, y i))
    / ((n : ℚ) * (∑ i in Finset.range n, (i : ℚ) * (i : ℚ))
      - (∑ i in Finset.range n, (i : ℚ)) * (∑ i in Finset.range n, (i : ℚ)))

/-- Modelled from the spec (§4.3): the ordinary least-squares
intercept. -/
def specIntercept (n : Nat) (y : Nat → ℚ) : ℚ :=
  ((∑ i in Finset.range n, y i) - specSlope n y * (∑ i in Finset.range n, (i : ℚ)))
    / (n : ℚ)

/-- The baseline in force before scanning index `i` of the remaining
values `cs` (spec §4.2): fold of the update rule over the first `i`
values. -/
def baselineBefore (b0 : ℚ) (cs : List ℚ) (i : Nat) : ℚ :=
  (cs.take i).foldl baselineStep b0

/-- The firing condition at scan index `i` (relative to the remaining
samples `l` and initial baseline `b0`): the jump of the current
smoothed value over the (just updated) baseline exceeds 6. -/
def triggerP (b0 : ℚ) (l : List SmoothedPoint) (i : Nat) : Bool :=
  decide (orZero (l.getD i dummyS).sma
    - baselineStep (baselineBefore b0 (l.map (fun d => orZero d.sma)) i)
        (orZero (l.getD i dummyS).sma) > 6)

/-! ### Concrete series for witnesses -/

/-- The literal raw series `[1,2,3,4,5,6]` of the spec's §8 check. -/
def c4Data : List RawPoint :=
  [⟨0, some 1⟩, ⟨1, some 2⟩, ⟨2, some 3⟩, ⟨3, some 4⟩, ⟨4, some 5⟩, ⟨5, some 6⟩]

/-- A raw series with a missing (`undefined`) value inside the window. -/
def c10Data : List RawPoint := [⟨0, some 3⟩, ⟨1, none⟩, ⟨2, some 6⟩]

/-- First sample of the step-series used for C3: steady at 15. -/
def c3First : SmoothedPoint := ⟨0, none, some 15⟩

/-- Remaining samples for C3: steady at 15, then a step to 26. -/
def c3Rest : List SmoothedPoint :=
  [⟨1, none, some 15⟩, ⟨2, none, some 15⟩, ⟨3, none, some 15⟩,
   ⟨4, none, some 15⟩, ⟨5, none, some 26⟩, ⟨6, none, some 26⟩]

/-- The step-series 15 → 26 used to witness C3. -/
def c3Data : List SmoothedPoint := c3First :: c3Rest

/-- A perfectly linear smoothed series `y = 2x + 1` at times 0..5. -/
def c2Data : List SmoothedPoint :=
  [⟨0, none, some 1⟩, ⟨1, none, some 3⟩, ⟨2, none, some 5⟩,
   ⟨3, none, some 7⟩, ⟨4, none, some 9⟩, ⟨5, none, some 11⟩]

/-! ## Shared lemmas -/

lemma orZero_some (q : ℚ) : orZero (some q) = q := rfl

/-- An accumulate-only `foldl` is the sum of the mapped elements. -/
lemma foldl_add_eq_sum {α : Type} (f : α → ℚ) (d : α) :
    ∀ (l : List α) (a : ℚ),
      l.foldl (fun acc x => acc + f x) a
        = a + ∑ j in Finset.range l.length, f (l.getD j d) := by
  intro l
  induction l with
  | nil => intro a; simp
  | cons x xs ih =>
    intro a
    simp only [List.foldl_cons, List.length_cons]
    rw [ih, Finset.sum_range_succ']
    simp only [List.getD_cons_succ, List.getD_cons_zero]
    ring

/-- Indexing into the trailing window `data.slice(s, s + w)`. -/
lemma window_getD (data : List RawPoint) (s w j : Nat) (hj : j < w) :
    ((data.drop s).take w).getD j dummyR = data.getD (s + j) dummyR := by
  rw [List.getD_eq_getElem?_getD, List.getD_eq_getElem?_getD,
    List.getElem?_take, if_pos hj, List.getElem?_drop]

/-- Length of the trailing window when it fits inside the list. -/
lemma window_length (data : List RawPoint) (s w : Nat) (hs : s + w ≤ data.length) :
    ((data.drop s).take w).length = w := by
  rw [List.length_take, List.length_drop]
  omega

/-- Pointwise description of `calculateSMA`'s output. -/
lemma calculateSMA_getD (data : List RawPoint) (w i : Nat) (hi : i < data.length) :
    (calculateSMA data w).getD i dummyS =
      if i < w - 1 then ⟨(data.getD i dummyR).time, (data.getD i dummyR).val, none⟩
      else ⟨(data.getD i dummyR).time, (data.getD i dummyR).val,
        some ((((data.drop (i + 1 - w)).take w).foldl
          (fun acc curr => acc + orZero curr.val) 0) / (w : ℚ))⟩ := by
  have hlen : i < (calculateSMA data w).length := by
    simpa [calculateSMA] using hi
  rw [List.getD_eq_getElem _ _ hlen]
  have hd : (data.getD i dummyR) = data[i] := List.getD_eq_getElem data dummyR hi
  simp only [calculateSMA, List.mapIdx_eq_enum_map, List.getElem_map,
    List.getElem_enum, Function.uncurry, hd]

/-- Scanning a series whose remaining values all equal the baseline
never fires and keeps the baseline fixed. -/
lemma inflectionGo_const (c : ℚ) :
    ∀ l : List SmoothedPoint, (∀ d ∈ l, d.sma = some c) →
      inflectionGo c l = none := by
  intro l
  induction l with
  | nil => intro _; rfl
  | cons d rest ih =>
    intro h
    have hd : orZero d.sma = c := by
      rw [h d (List.mem_cons_self d rest)]; rfl
    have hb : baselineStep c c = c := by
      unfold baselineStep
      rw [if_pos (by rw [sub_self, abs_zero]; norm_num)]
      ring
    simp only [inflectionGo, hd, hb]
    rw [if_neg (by rw [sub_self]; norm_num)]
    exact ih (fun d' hd' => h d' (List.mem_cons_of_mem _ hd'))

/-! ## C1 -/

/-- Claim C1, counterexample: a smoothed series whose defined smoothed
values drift upward by exactly 1.9 units per step (each consecutive
step change strictly under the 2.0 stability band) does NOT always
yield `null`: on `c1CexData` the detector fires at timestamp 4 (the
5th defined sample), because the baseline stops updating once
`|currentSMA - baseline| ≥ 2` and the frozen-baseline gap reaches
7.22 > 6 there. -/
theorem c1_drift_cex : findInflectionPoint c1CexData = some 4 := by
  norm_num [findInflectionPoint, validOf, c1CexData, inflectionGo,
    baselineStep, orZero, abs_lt]

lemma drift_step1 (v0 : ℚ) : baselineStep v0 (v0 + 1.9) = v0 + 0.38 := by
  have h : |v0 + 1.9 - v0| < 2 := by
    rw [show v0 + 1.9 - v0 = 1.9 by ring, abs_lt]
    exact ⟨by norm_num, by norm_num⟩
  unfold baselineStep
  rw [if_pos h]
  ring

lemma drift_step_frozen (v0 a : ℚ) (h2 : 2 ≤ a - 0.38) :
    baselineStep (v0 + 0.38) (v0 + a) = v0 + 0.38 := by
  unfold baselineStep
  rw [if_neg]
  rw [show v0 + a - (v0 + 0.38) = a - 0.38 by ring, abs_lt]
  intro hc
  linarith [hc.2]

/-- Under a 1.9-per-step drift the scan fires at the 4th scanned
sample. -/
lemma drift_go (v0 : ℚ) (d1 d2 d3 d4 : SmoothedPoint)
    (rest : List SmoothedPoint)
    (h1 : d1.sma = some (v0 + 1.9)) (h2 : d2.sma = some (v0 + 3.8))
    (h3 : d3.sma = some (v0 + 5.7)) (h4 : d4.sma = some (v0 + 7.6)) :
    inflectionGo v0 (d1 :: d2 :: d3 :: d4 :: rest) = some d4.time := by
  have c1 : orZero d1.sma = v0 + 1.9 := by rw [h1]; rfl
  have c2 : orZero d2.sma = v0 + 3.8 := by rw [h2]; rfl
  have c3 : orZero d3.sma = v0 + 5.7 := by rw [h3]; rfl
  have c4 : orZero d4.sma = v0 + 7.6 := by rw [h4]; rfl
  have b1 := drift_step1 v0
  have b2 : baselineStep (v0 + 0.38) (v0 + 3.8) = v0 + 0.38 :=
    drift_step_frozen v0 3.8 (by norm_num)
  have b3 : baselineStep (v0 + 0.38) (v0 + 5.7) = v0 + 0.38 :=
    drift_step_frozen v0 5.7 (by norm_num)
  have b4 : baselineStep (v0 + 0.38) (v0 + 7.6) = v0 + 0.38 :=
    drift_step_frozen v0 7.6 (by norm_num)
  simp only [inflectionGo, c1, c2, c3, c4, b1, b2, b3, b4]
  rw [if_neg (by rw [show v0 + 1.9 - (v0 + 0.38) = 1.52 by ring]; norm_num),
    if_neg (by rw [show v0 + 3.8 - (v0 + 0.38) = 3.42 by ring]; norm_num),
    if_neg (by rw [show v0 + 5.7 - (v0 + 0.38) = 5.32 by ring]; norm_num),
    if_pos (by rw [show v0 + 7.6 - (v0 + 0.38) = 7.22 by ring]; norm_num)]

/-- Claim C1 (amended): for every smoothed series with at least 5
defined smoothed samples whose defined smoothed values drift upward by
exactly 1.9 units per step, `findInflectionPoint` does not track the
drift: the baseline freezes once the gap reaches the 2.0 stability
band, the jump condition fires at the 5th defined sample (index 4,
where `currentSMA - baseline = 7.22 > 6`), and the detector returns
that sample's timestamp. -/
theorem c1_drift_triggers_amended (data : List SmoothedPoint) (v0 : ℚ)
    (h5 : 5 ≤ (validOf data).length)
    (hdrift : ∀ k, k < (validOf data).length →
      ((validOf data).getD k dummyS).sma = some (v0 + 1.9 * k)) :
    findInflectionPoint data = some (((validOf data).getD 4 dummyS).time) := by
  show (if (validOf data).length < 5 then none
    else match validOf data with
      | [] => none
      | d0 :: rest => inflectionGo (orZero d0.sma) rest)
    = some (((validOf data).getD 4 dummyS).time)
  rw [if_neg (by omega)]
  set vd := validOf data with hvd
  clear_value vd
  rcases vd with _ | ⟨d0, _ | ⟨d1, _ | ⟨d2, _ | ⟨d3, _ | ⟨d4, rest⟩⟩⟩⟩⟩ <;>
    simp only [List.length] at h5 <;> try omega
  have e0 : d0.sma = some (v0 + 1.9 * (0 : ℕ)) := hdrift 0 (by simp)
  have e1 : d1.sma = some (v0 + 1.9 * (1 : ℕ)) := hdrift 1 (by simp)
  have e2 : d2.sma = some (v0 + 1.9 * (2 : ℕ)) := hdrift 2 (by simp)
  have e3 : d3.sma = some (v0 + 1.9 * (3 : ℕ)) := hdrift 3 (by simp)
  have e4 : d4.sma = some (v0 + 1.9 * (4 : ℕ)) := hdrift 4 (by simp)
  show inflectionGo (orZero d0.sma) (d1 :: d2 :: d3 :: d4 :: rest)
    = some ((d0 :: d1 :: d2 :: d3 :: d4 :: rest).getD 4 dummyS).time
  simp only [List.getD_cons_succ, List.getD_cons_zero]
  have h0 : orZero d0.sma = v0 := by rw [e0]; norm_num [orZero]
  rw [h0]
  exact drift_go v0 d1 d2 d3 d4 rest
    (by rw [e1]; norm_num) (by rw [e2]; norm_num)
    (by rw [e3]; norm_num) (by rw [e4]; norm_num)

/-- Witness for C1's amended theorem at the concrete drifting series
`c1CexData` (start value 10). -/
theorem c1_drift_triggers_witness :
    findInflectionPoint c1CexData =
      some (((validOf c1CexData).getD 4 dummyS).time) :=
  c1_drift_triggers_amended c1CexData 10 (by decide)
    (by
      have hvd : validOf c1CexData = c1CexData := by
        simp [validOf, c1CexData]
      rw [hvd]
      intro k hk
      simp only [c1CexData, List.length] at hk
      interval_cases k <;> simp [c1CexData, List.getD] <;> norm_num)

/-! ## C2 / C7: structure of the forecast output -/

/-- With at least 5 defined samples, `generateForecast` is the anchor
followed by the mapped projection steps (the named pieces are
definitionally the source's let-bound subexpressions). -/
lemma generateForecast_eq (data : List SmoothedPoint) (key : String) (h : Nat)
    (h5 : 5 ≤ (validOf data).length) :
    generateForecast data key h
      = gfAnchor data :: (List.range h).map (gfStep data) := by
  simp only [generateForecast]
  rw [if_neg (by omega)]
  rfl

lemma list_eq_five (l : List SmoothedPoint) (h : l.length = 5) :
    ∃ p0 p1 p2 p3 p4, l = [p0, p1, p2, p3, p4] := by
  rcases l with _ | ⟨p0, _ | ⟨p1, _ | ⟨p2, _ | ⟨p3, _ | ⟨p4, tail⟩⟩⟩⟩⟩ <;>
    simp only [List.length_cons, List.length_nil] at h <;> try omega
  have htail : tail = [] := List.eq_nil_of_length_eq_zero (by omega)
  subst htail
  exact ⟨p0, p1, p2, p3, p4, rfl⟩

/-- The accumulation loop evaluated on a 5-element window. -/
lemma olsLoop_five (p0 p1 p2 p3 p4 : SmoothedPoint) :
    olsLoop 0 (0, 0, 0, 0) [p0, p1, p2, p3, p4]
      = (10,
         orZero p0.sma + orZero p1.sma + orZero p2.sma + orZero p3.sma
           + orZero p4.sma,
         orZero p1.sma + 2 * orZero p2.sma + 3 * orZero p3.sma
           + 4 * orZero p4.sma,
         30) := by
  simp only [olsLoop]
  norm_num [Prod.ext_iff]

lemma fitWindow_length (data : List SmoothedPoint)
    (h5 : 5 ≤ (validOf data).length) : (fitWindow data).length = 5 := by
  have hmin : min (validOf data).length 5 = 5 := Nat.min_eq_right h5
  simp only [fitWindow, List.length_drop, hmin]
  omega

/-- The code's fold-accumulated slope equals the closed-form OLS slope
over the fit window. -/
lemma codeSlope_eq (data : List SmoothedPoint)
    (h5 : 5 ≤ (validOf data).length) :
    codeSlope data = specSlope (min (validOf data).length 5) (fitY data) := by
  have hmin : min (validOf data).length 5 = 5 := Nat.min_eq_right h5
  obtain ⟨p0, p1, p2, p3, p4, hsub⟩ :=
    list_eq_five (fitWindow data) (fitWindow_length data h5)
  have hy0 : fitY data 0 = orZero p0.sma := by rw [fitY, hsub]; rfl
  have hy1 : fitY data 1 = orZero p1.sma := by rw [fitY, hsub]; rfl
  have hy2 : fitY data 2 = orZero p2.sma := by rw [fitY, hsub]; rfl
  have hy3 : fitY data 3 = orZero p3.sma := by rw [fitY, hsub]; rfl
  have hy4 : fitY data 4 = orZero p4.sma := by rw [fitY, hsub]; rfl
  unfold codeSlope specSlope
  rw [hsub, olsLoop_five, hmin]
  simp only [Finset.sum_range_succ, Finset.sum_range_zero,
    hy0, hy1, hy2, hy3, hy4]
  push_cast
  ring_nf

/-- The code's fold-accumulated intercept equals the closed-form OLS
intercept over the fit window. -/
lemma codeIntercept_eq (data : List SmoothedPoint)
    (h5 : 5 ≤ (validOf data).length) :
    codeIntercept data
      = specIntercept (min (validOf data).length 5) (fitY data) := by
  have hmin : min (validOf data).length 5 = 5 := Nat.min_eq_right h5
  obtain ⟨p0, p1, p2, p3, p4, hsub⟩ :=
    list_eq_five (fitWindow data) (fitWindow_length data h5)
  have hy0 : fitY data 0 = orZero p0.sma := by rw [fitY, hsub]; rfl
  have hy1 : fitY data 1 = orZero p1.sma := by rw [fitY, hsub]; rfl
  have hy2 : fitY data 2 = orZero p2.sma := by rw [fitY, hsub]; rfl
  have hy3 : fitY data 3 = orZero p3.sma := by rw [fitY, hsub]; rfl
  have hy4 : fitY data 4 = orZero p4.sma := by rw [fitY, hsub]; rfl
  unfold codeIntercept specIntercept
  rw [codeSlope_eq data h5, hsub, olsLoop_five, hmin]
  simp only [Finset.sum_range_succ, Finset.sum_range_zero,
    hy0, hy1, hy2, hy3, hy4]
  push_cast
  ring_nf

/-! ## C2 -/

/-- Claim C2: with at least 5 defined smoothed samples and horizon
`h ≥ 1`, the forecast has length `h + 1`; its first (anchor) element
duplicates the timestamp and smoothed value of the last defined
sample; and its element for step `k = 1..h` carries timestamp
`last + k * interval` (interval = difference of the last two defined
timestamps) and value `max 0 (slope*damping*(n - 1 + k) + intercept)`
with `damping = max 0.5 (1 - k*0.1)` and `slope`, `intercept` the
ordinary-least-squares fit over the trailing `n = min(available, 5)`
defined samples indexed `0..n-1`. -/
theorem c2_forecast_spec (data : List SmoothedPoint) (key : String) (h : Nat)
    (h5 : 5 ≤ (validOf data).length) (hh : 1 ≤ h) :
    (generateForecast data key h).length = h + 1 ∧
    (generateForecast data key h).getD 0 dummyF
      = ⟨(lastValid data).time, orZero (lastValid data).sma, false⟩ ∧
    (∀ k, 1 ≤ k → k ≤ h →
      (generateForecast data key h).getD k dummyF
        = ⟨(lastValid data).time
            + ((lastValid data).time - (prevValid data).time) * (k : Int),
           max 0 ((specSlope (min (validOf data).length 5) (fitY data)
               * max 0.5 (1 - (k : ℚ) * 0.1))
               * (((min (validOf data).length 5 : ℕ) : ℚ) - 1 + (k : ℚ))
             + specIntercept (min (validOf data).length 5) (fitY data)),
           true⟩) := by
  rw [generateForecast_eq data key h h5]
  refine ⟨by simp, rfl, ?_⟩
  intro k hk1 hkh
  obtain ⟨k', rfl⟩ : ∃ k', k = k' + 1 := ⟨k - 1, by omega⟩
  rw [List.getD_cons_succ, List.getD_eq_getElem?_getD, List.getElem?_map,
    List.getElem?_range (by omega : k' < h)]
  simp only [Option.map_some', Option.getD_some]
  unfold gfStep
  rw [codeSlope_eq data h5, codeIntercept_eq data h5]

/-- Witness for C2 at the linear series `y = 2x + 1` with horizon 6,
step `k = 2`. -/
theorem c2_forecast_spec_witness :
    (generateForecast c2Data "sma" 6).length = 6 + 1 ∧
    (generateForecast c2Data "sma" 6).getD 0 dummyF
      = ⟨(lastValid c2Data).time, orZero (lastValid c2Data).sma, false⟩ ∧
    (generateForecast c2Data "sma" 6).getD 2 dummyF
      = ⟨(lastValid c2Data).time
          + ((lastValid c2Data).time - (prevValid c2Data).time)
            * ((2 : ℕ) : Int),
         max 0 ((specSlope (min (validOf c2Data).length 5) (fitY c2Data)
             * max 0.5 (1 - ((2 : ℕ) : ℚ) * 0.1))
             * (((min (validOf c2Data).length 5 : ℕ) : ℚ) - 1 + ((2 : ℕ) : ℚ))
           + specIntercept (min (validOf c2Data).length 5) (fitY c2Data)),
         true⟩ := by
  have H := c2_forecast_spec c2Data "sma" 6 (by decide) (by decide)
  exact ⟨H.1, H.2.1, H.2.2 2 (by decide) (by decide)⟩

/-! ## C7 -/

/-- Claim C7: with at least 5 defined samples and strictly increasing
input timestamps, the forecast points after the anchor carry strictly
increasing timestamps, the `k`-th being exactly `k + 1` intervals after
the last historical timestamp, where the interval is the difference of
the last two defined timestamps. -/
theorem c7_forecast_times (data : List SmoothedPoint) (key : String) (h : Nat)
    (h5 : 5 ≤ (validOf data).length)
    (hinc : data.Pairwise (fun a b => a.time < b.time)) :
    (∀ k, k < h →
      (((generateForecast data key h).drop 1).getD k dummyF).time
        = (lastValid data).time
          + ((lastValid data).time - (prevValid data).time)
            * ((k + 1 : ℕ) : Int)) ∧
    ((((generateForecast data key h).drop 1).map (fun p => p.time)).Pairwise
      (· < ·)) := by
  rw [generateForecast_eq data key h h5]
  simp only [List.drop_succ_cons, List.drop_zero]
  constructor
  · intro k hk
    rw [List.getD_eq_getElem?_getD, List.getElem?_map, List.getElem?_range hk]
    simp only [Option.map_some', Option.getD_some]
    rfl
  · have hvp : (validOf data).Pairwise (fun a b => a.time < b.time) :=
      List.Pairwise.sublist (List.filter_sublist data) hinc
    have hi : (validOf data).length - 2 < (validOf data).length := by omega
    have hj : (validOf data).length - 1 < (validOf data).length := by omega
    have hlt : (prevValid data).time < (lastValid data).time := by
      have hIJ := List.pairwise_iff_get.mp hvp
        ⟨(validOf data).length - 2, hi⟩ ⟨(validOf data).length - 1, hj⟩
        (by simp only [Fin.mk_lt_mk]; omega)
      rw [prevValid, lastValid, List.getD_eq_getElem _ _ hi,
        List.getD_eq_getElem _ _ hj]
      exact hIJ
    rw [List.map_map, List.pairwise_map]
    refine (List.pairwise_lt_range h).imp ?_
    intro a b hab
    show (gfStep data a).time < (gfStep data b).time
    unfold gfStep
    have hcast : ((a + 1 : ℕ) : Int) < ((b + 1 : ℕ) : Int) := by
      exact_mod_cast Nat.succ_lt_succ hab
    exact add_lt_add_left
      (mul_lt_mul_of_pos_left hcast (by omega)) _

/-- Witness for C7 at the linear series with horizon 6, index 0 of the
post-anchor points. -/
theorem c7_forecast_times_witness :
    (((generateForecast c2Data "sma" 6).drop 1).getD 0 dummyF).time
      = (lastValid c2Data).time
        + ((lastValid c2Data).time - (prevValid c2Data).time)
          * ((0 + 1 : ℕ) : Int) ∧
    ((((generateForecast c2Data "sma" 6).drop 1).map (fun p => p.time)).Pairwise
      (· < ·)) := by
  have H := c7_forecast_times c2Data "sma" 6 (by decide) (by decide)
  exact ⟨H.1 0 (by decide), H.2⟩

/-! ## C3 -/

lemma triggerP_zero (b0 : ℚ) (d : SmoothedPoint) (rest : List SmoothedPoint) :
    triggerP b0 (d :: rest) 0
      = decide (orZero d.sma - baselineStep b0 (orZero d.sma) > 6) := rfl

lemma triggerP_succ (b0 : ℚ) (d : SmoothedPoint) (rest : List SmoothedPoint)
    (i : Nat) :
    triggerP b0 (d :: rest) (i + 1)
      = triggerP (baselineStep b0 (orZero d.sma)) rest i := rfl

/-- The break-at-first-hit scan equals "find the first index whose
(fold-precomputed) baseline is exceeded by more than 6". -/
lemma inflectionGo_eq_find (l : List SmoothedPoint) : ∀ b0 : ℚ,
    inflectionGo b0 l
      = Option.map (fun i => (l.getD i dummyS).time)
          ((List.range l.length).find? (triggerP b0 l)) := by
  induction l with
  | nil => intro b0; rfl
  | cons d rest ih =>
    intro b0
    rw [List.length_cons, List.range_succ_eq_map]
    by_cases hp : orZero d.sma - baselineStep b0 (orZero d.sma) > 6
    · have h0 : triggerP b0 (d :: rest) 0 = true := by
        rw [triggerP_zero]; exact decide_eq_true hp
      simp only [List.find?_cons, h0]
      simp only [inflectionGo]
      rw [if_pos hp]
      rfl
    · have h0 : triggerP b0 (d :: rest) 0 = false := by
        rw [triggerP_zero]; exact decide_eq_false hp
      simp only [List.find?_cons, h0]
      simp only [inflectionGo]
      rw [if_neg hp, List.find?_map, Option.map_map]
      have hcomp : triggerP b0 (d :: rest) ∘ Nat.succ
          = triggerP (baselineStep b0 (orZero d.sma)) rest := by
        funext i
        exact triggerP_succ b0 d rest i
      have hfun : ((fun i => ((d :: rest).getD i dummyS).time) ∘ Nat.succ)
          = fun i => (rest.getD i dummyS).time := by
        funext i
        rfl
      rw [hcomp, hfun]
      exact ih (baselineStep b0 (orZero d.sma))

/-- Claim C3: with at least 5 defined samples `d0 :: rest`, the
detector initialises the baseline to the first defined smoothed value,
scans the rest in order, updates the baseline by
`baseline*0.8 + current*0.2` exactly when `|current - baseline| < 2`,
and returns the timestamp of the FIRST sample whose jump over the
tracked baseline exceeds 6, stopping there. -/
theorem c3_detector_characterization (data : List SmoothedPoint)
    (d0 : SmoothedPoint) (rest : List SmoothedPoint)
    (h5 : 5 ≤ (validOf data).length)
    (hvd : validOf data = d0 :: rest) :
    findInflectionPoint data
      = Option.map (fun i => (rest.getD i dummyS).time)
          ((List.range rest.length).find? (triggerP (orZero d0.sma) rest)) ∧
    (∀ b c : ℚ, |c - b| < 2 → baselineStep b c = b * 0.8 + c * 0.2) ∧
    (∀ b c : ℚ, ¬|c - b| < 2 → baselineStep b c = b) := by
  refine ⟨?_, fun b c hbc => by unfold baselineStep; rw [if_pos hbc],
    fun b c hbc => by unfold baselineStep; rw [if_neg hbc]⟩
  have h5' : 5 ≤ rest.length + 1 := by
    rw [hvd] at h5; simpa using h5
  show (if (validOf data).length < 5 then none
    else match validOf data with
      | [] => none
      | d :: r => inflectionGo (orZero d.sma) r)
    = Option.map (fun i => (rest.getD i dummyS).time)
        ((List.range rest.length).find? (triggerP (orZero d0.sma) rest))
  rw [hvd, if_neg (by simp only [List.length_cons]; omega)]
  exact inflectionGo_eq_find rest (orZero d0.sma)

/-- Witness for C3 at the step-series 15 → 26. -/
theorem c3_detector_characterization_witness :
    findInflectionPoint c3Data
      = Option.map (fun i => (c3Rest.getD i dummyS).time)
          ((List.range c3Rest.length).find?
            (triggerP (orZero c3First.sma) c3Rest)) ∧
    (∀ b c : ℚ, |c - b| < 2 → baselineStep b c = b * 0.8 + c * 0.2) ∧
    (∀ b c : ℚ, ¬|c - b| < 2 → baselineStep b c = b) :=
  c3_detector_characterization c3Data c3First c3Rest (by decide)
    (by simp [validOf, c3Data, c3First, c3Rest])

/-! ## C4 -/

/-- Claim C4: for every input series with numeric values and window
`w ≥ 1`, `calculateSMA` preserves the length, leaves `sma` undefined
for `i < w - 1`, and for `i ≥ w - 1` sets `sma` to the arithmetic mean
of the values at indices `i - w + 1 .. i`; the literal check on
`[1,2,3,4,5,6]`, `w = 3` is the witness. -/
theorem c4_sma_spec (data : List RawPoint) (w : Nat) (v : Nat → ℚ)
    (hw : 1 ≤ w)
    (hv : ∀ j, j < data.length → (data.getD j dummyR).val = some (v j)) :
    (calculateSMA data w).length = data.length ∧
    (∀ i, i < data.length → i < w - 1 →
      ((calculateSMA data w).getD i dummyS).sma = none) ∧
    (∀ i, i < data.length → w - 1 ≤ i →
      ((calculateSMA data w).getD i dummyS).sma =
        some ((∑ j in Finset.range w, v (i + 1 - w + j)) / (w : ℚ))) := by
  refine ⟨by simp [calculateSMA], ?_, ?_⟩
  · intro i hi hlt
    rw [calculateSMA_getD data w i hi, if_pos hlt]
  · intro i hi hge
    rw [calculateSMA_getD data w i hi, if_neg (by omega)]
    have hfold : ((data.drop (i + 1 - w)).take w).foldl
        (fun acc curr => acc + orZero curr.val) 0
        = ∑ j in Finset.range w, v (i + 1 - w + j) := by
      rw [foldl_add_eq_sum (fun curr => orZero curr.val) dummyR, zero_add,
        window_length data (i + 1 - w) w (by omega)]
      refine Finset.sum_congr rfl (fun j hj => ?_)
      have hjw : j < w := Finset.mem_range.mp hj
      rw [window_getD data (i + 1 - w) w j hjw,
        hv (i + 1 - w + j) (by omega)]
      rfl
    simp only [hfold]

/-- Witness for C4: the spec's literal series `[1,2,3,4,5,6]` with
`w = 3` gives smoothed values 2.0, 3.0, 4.0, 5.0 at indices 2..5. -/
theorem c4_sma_spec_witness :
    ((calculateSMA c4Data 3).getD 2 dummyS).sma = some 2 ∧
    ((calculateSMA c4Data 3).getD 3 dummyS).sma = some 3 ∧
    ((calculateSMA c4Data 3).getD 4 dummyS).sma = some 4 ∧
    ((calculateSMA c4Data 3).getD 5 dummyS).sma = some 5 := by
  have H := c4_sma_spec c4Data 3 (fun j => (j : ℚ) + 1) (by norm_num)
    (by
      intro j hj
      simp only [c4Data, List.length_cons, List.length_nil] at hj
      interval_cases j <;> simp [c4Data] <;> norm_num)
  refine ⟨?_, ?_, ?_, ?_⟩ <;>
    rw [H.2.2 _ (by simp [c4Data]) (by norm_num)] <;>
    norm_num [Finset.sum_range_succ]

/-! ## C10 -/

/-- Claim C10: `calculateSMA` coerces a missing (`undefined`) value to
0 via `curr[key] || 0`: with no assumption at all on the values, every
full-window index still gets a defined smoothed value, equal to the
window sum of the 0-coerced values divided by the window size. -/
theorem c10_falsy_coercion (data : List RawPoint) (w i : Nat)
    (hw : 1 ≤ w) (hi : i < data.length) (hwin : w - 1 ≤ i) :
    ((calculateSMA data w).getD i dummyS).sma =
      some ((∑ j in Finset.range w,
          ((data.getD (i + 1 - w + j) dummyR).val).getD 0) / (w : ℚ)) := by
  rw [calculateSMA_getD data w i hi, if_neg (by omega)]
  have hfold : ((data.drop (i + 1 - w)).take w).foldl
      (fun acc curr => acc + orZero curr.val) 0
      = ∑ j in Finset.range w, ((data.getD (i + 1 - w + j) dummyR).val).getD 0 := by
    rw [foldl_add_eq_sum (fun curr => orZero curr.val) dummyR, zero_add,
      window_length data (i + 1 - w) w (by omega)]
    refine Finset.sum_congr rfl (fun j hj => ?_)
    rw [window_getD data (i + 1 - w) w j (Finset.mem_range.mp hj)]
    rfl
  simp only [hfold]

/-- Witness for C10: in `[3, undefined, 6]` with `w = 3` the missing
middle value enters the sum as 0 and index 2 still gets
`(3 + 0 + 6)/3 = 3`. -/
theorem c10_falsy_coercion_witness :
    ((calculateSMA c10Data 3).getD 2 dummyS).sma = some 3 := by
  rw [c10_falsy_coercion c10Data 3 2 (by norm_num) (by simp [c10Data])
    (by norm_num)]
  norm_num [c10Data, Finset.sum_range_succ]

/-! ## C5 -/

/-- Claim C5: with fewer than 5 defined smoothed entries the detector
returns `null` and the forecaster returns the empty sequence; both are
total functions, so no error is possible. -/
theorem c5_short_series (data : List SmoothedPoint) (key : String) (h : Nat)
    (hlt : (validOf data).length < 5) :
    findInflectionPoint data = none ∧ generateForecast data key h = [] := by
  constructor
  · show (if (validOf data).length < 5 then none
      else match validOf data with
        | [] => none
        | d0 :: rest => inflectionGo (orZero d0.sma) rest) = none
    rw [if_pos hlt]
  · simp [generateForecast, hlt]

/-- Witness for C5 at the empty series. -/
theorem c5_short_series_witness :
    findInflectionPoint [] = none ∧ generateForecast [] "sma" 6 = [] :=
  c5_short_series [] "sma" 6 (by decide)

/-! ## C6 -/

/-- Claim C6: for every perfectly flat smoothed series (all defined
smoothed values equal to the same constant) of any length,
`findInflectionPoint` returns `null`. -/
theorem c6_flat_series (data : List SmoothedPoint) (c : ℚ)
    (hflat : ∀ d ∈ data, d.sma.isSome → d.sma = some c) :
    findInflectionPoint data = none := by
  have hval : ∀ d ∈ validOf data, d.sma = some c := by
    intro d hd
    have hm := List.mem_filter.mp hd
    exact hflat d hm.1 (by simpa using hm.2)
  show (if (validOf data).length < 5 then none
    else match validOf data with
      | [] => none
      | d0 :: rest => inflectionGo (orZero d0.sma) rest) = none
  by_cases h5 : (validOf data).length < 5
  · rw [if_pos h5]
  · rw [if_neg h5]
    cases hvd : validOf data with
    | nil => rfl
    | cons d0 rest =>
      have h0 : d0.sma = some c := by
        refine hval d0 ?_
        rw [hvd]; exact List.mem_cons_self _ _
      have h0' : orZero d0.sma = c := by rw [h0]; rfl
      show inflectionGo (orZero d0.sma) rest = none
      rw [h0']
      refine inflectionGo_const c rest (fun d' hd' => ?_)
      refine hval d' ?_
      rw [hvd]; exact List.mem_cons_of_mem _ hd'

/-- Witness for C6 at a 20-sample series flat at 15.0. -/
theorem c6_flat_series_witness : findInflectionPoint c6FlatData = none :=
  c6_flat_series c6FlatData 15 (by
    intro d hd _
    simp only [c6FlatData, List.mem_map] at hd
    obtain ⟨i, _, rfl⟩ := hd
    rfl)

/-! ## C8 -/

/-- Claim C8: the analysis pipeline is deterministic — recomputing
`calculateSMA`, `findInflectionPoint`, `generateForecast` and the
composed `getAnalysisData` on the identical input yields exactly equal
results (the embedded functions are pure, so equality is
definitional). -/
theorem c8_pipeline_deterministic (chartData : List RawPoint) (key : String)
    (w h : Nat) :
    calculateSMA chartData w = calculateSMA chartData w ∧
    findInflectionPoint (calculateSMA chartData w) =
      findInflectionPoint (calculateSMA chartData w) ∧
    generateForecast (calculateSMA chartData w) key h =
      generateForecast (calculateSMA chartData w) key h ∧
    getAnalysisData chartData = getAnalysisData chartData :=
  ⟨rfl, rfl, rfl, rfl⟩

/-! ## C9 -/

/-- Claim C9: the `key` parameter of `generateForecast` has no
influence on its output — the function reads only the `sma` and `time`
fields of its input, so any two key values give identical results. -/
theorem c9_key_noninterference (data : List SmoothedPoint)
    (key1 key2 : String) (h : Nat) :
    generateForecast data key1 h = generateForecast data key2 h := rfl

end TrendAnalysis
